import Mathlib

/-!
Verification of the mask-to-polygon pipeline of
`src/segmentation/process_img_for_unity.py` (with the near-identical
variants in `src/segmentation/archive/`).

Modelling conventions:
* A raster (`mask01` in the Python) is a `List (List Bool)` of rows,
  row-major, `true` = foreground pixel.  Coordinates are `(x, y)` with
  `x` the column index and `y` the row index, origin at the top-left.
* Integer quantities are `ℕ`/`ℤ`; float ratios are modelled exactly as `ℚ`;
  `cv2.arcLength`, which sums Euclidean square roots, is modelled as a real
  number, so the simplifier that consumes it is noncomputable.
* The module-level tunables of the source file (`MIN_INSTANCE_AREA_PX`,
  `BG_AREA_FRAC_TH`, `BORDER_TOUCH_FRAC_TH`, `BORDER_BAND_PX`,
  `ENABLE_HOLE_HEURISTIC`, `HOLE_FRAC_TH`, `MIN_HOLE_AREA_PX`,
  `MIN_CONTOUR_AREA`, `EPS_FRACTION`, `MAX_POINTS`) are collected into an
  explicit parameter record `Params`; `defaultParams` holds the values
  assigned in the source file.
* OpenCV routines called by the source (`cv2.morphologyEx`,
  `cv2.findContours`, `cv2.contourArea`, `cv2.arcLength`,
  `cv2.approxPolyDP`, `cv2.floodFill`, `cv2.connectedComponentsWithStats`)
  are external library code, not part of this repository; they are modelled
  by implementations of their documented behaviour, noted at each
  definition.
-/

/-- A raster: rows of booleans, row-major, `true` = foreground. -/
abbrev Raster := List (List Bool)

/-- Number of rows (`mask01.shape[0]`). -/
def rHeight (m : Raster) : ℕ := m.length

/-- Number of columns (`mask01.shape[1]`). -/
def rWidth (m : Raster) : ℕ := (m.headD []).length

/-- Pixel lookup at column `x`, row `y`; out-of-bounds reads are background. -/
def getPix (m : Raster) (x y : ℤ) : Bool :=
  if 0 ≤ x ∧ 0 ≤ y then (m.getD y.toNat []).getD x.toNat false else false

/-- Bounds test for a coordinate pair. -/
def inBds (m : Raster) (x y : ℤ) : Bool :=
  decide (0 ≤ x) && decide (0 ≤ y) &&
    decide (x < (rWidth m : ℤ)) && decide (y < (rHeight m : ℤ))

/-- Foreground pixel count of a raster (`mask01.sum()`). -/
def countTrue (m : Raster) : ℕ :=
  (m.map (fun row => row.countP (fun b => b))).sum

/-- The all-background raster of `h` rows and `w` columns. -/
def allFalse (h w : ℕ) : Raster := List.replicate h (List.replicate w false)

/-- Number of foreground pixels inside the border band of width `b`
(`(m & border).sum()` in the source). -/
def borderTouchCount (m : Raster) (b : ℕ) : ℕ :=
  let h := rHeight m
  let w := rWidth m
  ((List.range h).map (fun y =>
    ((List.range w).filter (fun x =>
      getPix m x y &&
        (decide (y < b) || decide (h - b ≤ y) ||
         decide (x < b) || decide (w - b ≤ x)))).length)).sum

/-- Embeds `border_touch_frac` (process_img_for_unity.py lines 119-136):
fraction of foreground pixels lying in a band of width `max 1 band_px`
along the four raster edges; `0` when the mask is empty (the source guards
with `total <= 1e-9` before dividing). -/
def border_touch_frac (m : Raster) (band_px : ℤ) : ℚ :=
  let total : ℚ := countTrue m
  if total ≤ 1 / 1000000000 then 0
  else (borderTouchCount m (max 1 band_px.toNat) : ℚ) / total

/-- 4-neighbourhood of a pixel. -/
def nbrs4 (x y : ℤ) : List (ℤ × ℤ) := [(x + 1, y), (x - 1, y), (x, y + 1), (x, y - 1)]

/-- 8-neighbourhood of a pixel. -/
def nbrs8 (x y : ℤ) : List (ℤ × ℤ) :=
  [(x + 1, y), (x - 1, y), (x, y + 1), (x, y - 1),
   (x + 1, y + 1), (x + 1, y - 1), (x - 1, y + 1), (x - 1, y - 1)]

/-- Fuelled breadth-first collection of the connected component of value-`v`
pixels reachable from the frontier; `visited` accumulates the component. -/
def growComp (m : Raster) (v : Bool) (conn8 : Bool) :
    ℕ → List (ℤ × ℤ) → List (ℤ × ℤ) → List (ℤ × ℤ)
  | 0, visited, _ => visited
  | _ + 1, visited, [] => visited
  | fuel + 1, visited, p :: frontier =>
      let visited' := visited ++ [p]
      let cand := (if conn8 then nbrs8 p.1 p.2 else nbrs4 p.1 p.2).filter
        (fun q => inBds m q.1 q.2 && (getPix m q.1 q.2 == v) &&
          !(visited'.contains q) && !(frontier.contains q))
      growComp m v conn8 fuel visited' (frontier ++ cand)

/-- Connected component (4- or 8-connectivity) of pixels of value `v`
containing `seed`; empty when the seed does not have value `v`. -/
def compOf (m : Raster) (v : Bool) (conn8 : Bool) (seed : ℤ × ℤ) : List (ℤ × ℤ) :=
  if inBds m seed.1 seed.2 && (getPix m seed.1 seed.2 == v) then
    growComp m v conn8 (rHeight m * rWidth m + 1) [] [seed]
  else []

/-- Models `cv2.floodFill(ff, flood_mask, (0, 0), 0)` (external OpenCV,
called at line 153): the 4-connected component of pixel `(0, 0)` among
pixels sharing its value is overwritten with `0` (background).  When the
seed already has value `0` the image is unchanged, which the single
expression below also captures. -/
def floodFillZero (m : Raster) : Raster :=
  let comp := compOf m (getPix m 0 0) false (0, 0)
  (List.range (rHeight m)).map (fun y =>
    (List.range (rWidth m)).map (fun x =>
      if comp.contains ((x : ℤ), (y : ℤ)) then false else getPix m x y))

/-- All coordinates of a raster in row-major order. -/
def allPos (m : Raster) : List (ℤ × ℤ) :=
  ((List.range (rHeight m)).map (fun y =>
    (List.range (rWidth m)).map (fun x => ((x : ℤ), (y : ℤ))))).flatten

/-- Models `cv2.connectedComponentsWithStats(..., connectivity=8)` (external
OpenCV, called at line 158): the 8-connected components of foreground
pixels, discovered in row-major scan order. -/
def components8 (m : Raster) : List (List (ℤ × ℤ)) :=
  (allPos m).foldl
    (fun comps p =>
      if getPix m p.1 p.2 && !(comps.any (fun c => c.contains p)) then
        comps ++ [compOf m true true p]
      else comps) []

/-- Pixel count of the surviving hole components: the source flood fills the
inverted mask from `(0, 0)`, labels what remains with 8-connectivity, and
sums the components of size at least `min_hole_area_px`. -/
def holeAreaBig (m : Raster) (min_hole_area_px : ℕ) : ℕ :=
  let inv : Raster := m.map (fun row => row.map (fun b => !b))
  let ff := floodFillZero inv
  let holesBig := (components8 ff).filter (fun c => min_hole_area_px ≤ c.length)
  (holesBig.map List.length).sum

/-- Embeds `hole_frac` (lines 139-166): area of the enclosed-background
components of size at least `min_hole_area_px` that remain after flood
filling the inverted mask from corner `(0, 0)`, divided by the foreground
area; `0` for an empty mask (guard `total <= 1e-9`). -/
def hole_frac (m : Raster) (min_hole_area_px : ℕ) : ℚ :=
  let total : ℚ := countTrue m
  if total ≤ 1 / 1000000000 then 0
  else (holeAreaBig m min_hole_area_px : ℚ) / total

/-- The module-level tunables of the source file as an explicit record. -/
structure Params where
  min_instance_area_px : ℕ
  bg_area_frac_th : ℚ
  border_touch_frac_th : ℚ
  border_band_px : ℤ
  enable_hole_heuristic : Bool
  hole_frac_th : ℚ
  min_hole_area_px : ℕ
  min_contour_area : ℚ
  eps_fraction : ℚ
  max_points : ℕ
  do_open : Bool
  do_close : Bool
  morph_iters : ℕ

/-- The values assigned to the tunables in the source file (lines 39-61). -/
def defaultParams : Params :=
  ⟨150, 45 / 100, 10 / 100, 3, true, 8 / 100, 80, 200, 1 / 100, 256, true, false, 1⟩

/-- The `stats` dictionary built by `is_background_like` (lines 176-181). -/
structure MaskStats where
  area : ℕ
  area_frac : ℚ
  border_touch : ℚ
  hole : ℚ
deriving DecidableEq

/-- The classification reasons of `is_background_like`.  The source returns
f-strings; each constructor records the rule that fired together with the
numeric payload interpolated into the string, and `Reason.tag` is the
string's leading token. -/
inductive Reason where
  | tooSmall (area : ℕ)
  | tooLarge (f : ℚ)
  | borderTouch (f : ℚ)
  | holeFrac (f : ℚ)
  | kept
deriving DecidableEq

/-- Leading token of the reason string returned by `is_background_like`. -/
def Reason.tag : Reason → String
  | .tooSmall _ => "too_small"
  | .tooLarge _ => "too_large"
  | .borderTouch _ => "border_touch"
  | .holeFrac _ => "hole_frac"
  | .kept => "kept"

/-- Embeds `is_background_like` (lines 169-198): computes the statistics,
then applies the threshold rules in the source's order, first match wins. -/
def is_background_like (p : Params) (m : Raster) : Bool × Reason × MaskStats :=
  let area := countTrue m
  let h := rHeight m
  let w := rWidth m
  let area_frac : ℚ := if 0 < h * w then (area : ℚ) / ((h : ℚ) * (w : ℚ)) else 0
  let bfrac := border_touch_frac m p.border_band_px
  let hfrac := if p.enable_hole_heuristic then hole_frac m p.min_hole_area_px else 0
  let stats : MaskStats := ⟨area, area_frac, bfrac, hfrac⟩
  if area < p.min_instance_area_px then (true, .tooSmall area, stats)
  else if p.bg_area_frac_th ≤ area_frac then (true, .tooLarge area_frac, stats)
  else if p.border_touch_frac_th ≤ bfrac then (true, .borderTouch bfrac, stats)
  else if p.enable_hole_heuristic && decide (p.hole_frac_th ≤ hfrac) then
    (true, .holeFrac hfrac, stats)
  else (false, .kept, stats)

/-- A polygon vertex.  The source casts the integer pixel contour to
`float32`, reduces it, and maps back with `int(round(.))`; every vertex the
reduction keeps is a vertex of the input and integer pixel coordinates are
exactly representable, so the conversion and the rounding are the identity
and the model works directly on integer vertices. -/
abbrev Pt := ℤ × ℤ

/-- Squared Euclidean distance between two vertices. -/
def sqDist (a b : Pt) : ℤ := (b.1 - a.1) * (b.1 - a.1) + (b.2 - a.2) * (b.2 - a.2)

/-- Cross product of the chord `b - a` with `p - a`; its absolute value is
the perpendicular distance of `p` from the line through `a` and `b`,
multiplied by the chord length. -/
def crossAt (a b p : Pt) : ℤ := (b.1 - a.1) * (p.2 - a.2) - (b.2 - a.2) * (p.1 - a.1)

/-- One Douglas-Peucker pass over an open chain, parametrised by the
keep-test `farB c2 d2`, which decides whether a point whose squared cross
product with the chord is `c2` lies farther than the tolerance from a chord
of squared length `d2`.  Endpoints are always kept; the farthest interior
point (first maximum) is kept and the chain split there.  `fuel` bounds the
recursion; it is at least the chain length at every call site, which the
splits can never exhaust. -/
def dpChainF (farB : ℤ → ℤ → Bool) : ℕ → List Pt → List Pt
  | 0, c => c
  | fuel + 1, c =>
    match c with
    | [] => []
    | [a] => [a]
    | [a, b] => [a, b]
    | a :: rest =>
      let z := rest.getLastD a
      let interior := rest.dropLast
      let cs := interior.map (fun p => crossAt a z p * crossAt a z p)
      let cmax := cs.foldl max 0
      if farB cmax (sqDist a z) then
        let k := cs.findIdx (fun v => v == cmax)
        dpChainF farB fuel (c.take (k + 2)) ++ (dpChainF farB fuel (c.drop (k + 1))).drop 1
      else [a, z]

/-- Douglas-Peucker on an open chain with fuel initialised to the length. -/
def dpChain (farB : ℤ → ℤ → Bool) (c : List Pt) : List Pt :=
  dpChainF farB c.length c

/-- Models `cv2.approxPolyDP(pts, eps, closed=True)` (external OpenCV,
called at line 96; spec section 4.3 calls it iterative Douglas-Peucker
point elimination).  The closed curve is split at the vertex farthest from
the start vertex (`farPt d2` decides whether squared distance `d2` exceeds
the squared tolerance); both arcs are reduced by `dpChainF` and rejoined
without duplicating the shared endpoints.  Degenerate curves lying within
tolerance of the start vertex collapse to a single vertex, matching the
library's behaviour of returning fewer than 3 points on such inputs. -/
def approxPolyDPWith (farPt : ℤ → Bool) (farB : ℤ → ℤ → Bool) (pts : List Pt) : List Pt :=
  match pts with
  | [] => []
  | [a] => [a]
  | [a, b] => [a, b]
  | a :: _ :: _ :: _ =>
    let ds := pts.map (fun p => sqDist a p)
    let dmax := ds.foldl max 0
    if farPt dmax then
      let k := ds.findIdx (fun v => v == dmax)
      let r1 := dpChain farB (pts.take (k + 1))
      let r2 := dpChain farB (pts.drop k ++ [a])
      r1 ++ (r2.drop 1).dropLast
    else [a]

/-- The closed-curve reduction with a real tolerance `eps`, as the source
passes `eps = max(1.0, EPS_FRACTION * peri)`.  The comparisons
`dist > eps` are expressed on squares: `cross * cross > eps * eps * d2`. -/
noncomputable def approxPolyDP (eps : ℝ) (pts : List Pt) : List Pt :=
  approxPolyDPWith (fun d2 => decide ((d2 : ℝ) > eps * eps))
    (fun c2 d2 => decide ((c2 : ℝ) > eps * eps * (d2 : ℝ))) pts

/-- Computable twin of `approxPolyDP` for tolerance 1, the value `epsOf`
takes on every concrete contour below. -/
def approxPolyDPOne (pts : List Pt) : List Pt :=
  approxPolyDPWith (fun d2 => decide (d2 > 1)) (fun c2 d2 => decide (c2 > d2)) pts

/-- Models `cv2.arcLength(pts, closed=True)` (external OpenCV, line 94):
the Euclidean perimeter of the closed polygon. -/
noncomputable def arcLengthClosed (pts : List Pt) : ℝ :=
  match pts with
  | [] => 0
  | p :: _ =>
    ((pts.zip (pts.drop 1 ++ [p])).map
      (fun pq => Real.sqrt ((sqDist pq.1 pq.2 : ℤ) : ℝ))).sum

/-- The tolerance `eps = max(1.0, eps_fraction * peri)` of line 95. -/
noncomputable def epsOf (f : ℚ) (pts : List Pt) : ℝ :=
  max 1 ((f : ℝ) * arcLengthClosed pts)

/-- Embeds `np.linspace(0, n - 1, max_points).astype(int)` followed by the
index selection (lines 100-101): `max_points` indices evenly spaced over
`[0, n - 1]`, truncated to integers.  (The float computation can differ
from the exact rational by one ulp at the truncation boundary; only the
selected values, never the count, could be affected.) -/
def resampleTo (M : ℕ) (l : List Pt) : List Pt :=
  match M with
  | 0 => []
  | 1 => l.take 1
  | _ => (List.range M).map (fun i => l.getD (i * (l.length - 1) / (M - 1)) (0, 0))

/-- Embeds `simplify_polygon` (lines 89-106) = `_simplify_polygon` of the
archive scripts: returns `[]` for fewer than 3 input points, otherwise
reduces with tolerance `epsOf`, caps the vertex count at `max_points` by
uniform index resampling, and drops the last vertex when it duplicates the
first.  (The cast to `float32` and the rounding `int(round(.))` of the
source are the identity on the integer vertices the reduction keeps; see
`Pt`.) -/
noncomputable def simplify_polygon (f : ℚ) (M : ℕ) (poly : List (ℤ × ℤ)) : List (ℤ × ℤ) :=
  if poly.length < 3 then []
  else
    let approx := approxPolyDP (epsOf f poly) poly
    let capped := if M < approx.length then resampleTo M approx else approx
    if 2 ≤ capped.length && (capped.head? == capped.getLast?) then capped.dropLast else capped

/-- The 8 directions in counter-clockwise screen order (y grows downward),
starting East: E, NE, N, NW, W, SW, S, SE. -/
def dirs8 : List (ℤ × ℤ) :=
  [(1, 0), (1, -1), (0, -1), (-1, -1), (-1, 0), (-1, 1), (0, 1), (1, 1)]

/-- Index of a direction in `dirs8`. -/
def dirIdx (d : ℤ × ℤ) : ℕ := dirs8.findIdx (fun e => e == d)

/-- One step of Moore-neighbour boundary tracing: from current boundary
pixel `c` with backtrack (background) neighbour `b`, scan the neighbours of
`c` starting after the direction of `b`; the first foreground hit is the
next boundary pixel and the previously scanned cell the new backtrack.
`none` when `c` has no foreground neighbour (isolated pixel). -/
def moorStep (m : Raster) (c b : ℤ × ℤ) : Option ((ℤ × ℤ) × (ℤ × ℤ)) :=
  let i := dirIdx (b.1 - c.1, b.2 - c.2)
  let js := (List.range 8).map (fun t => (i + 1 + t) % 8)
  match js.find? (fun j =>
    let d := dirs8.getD j (0, 0)
    inBds m (c.1 + d.1) (c.2 + d.2) && getPix m (c.1 + d.1) (c.2 + d.2)) with
  | none => none
  | some j =>
    let d := dirs8.getD j (0, 0)
    let e := dirs8.getD ((j + 7) % 8) (0, 0)
    some ((c.1 + d.1, c.2 + d.2), (c.1 + e.1, c.2 + e.2))

/-- Fuelled orbit of the tracing step: returns the visited states in order
and, when the walk re-enters a previous state, that state. -/
def traceOrbit (m : Raster) :
    ℕ → ((ℤ × ℤ) × (ℤ × ℤ)) → List ((ℤ × ℤ) × (ℤ × ℤ)) →
      List ((ℤ × ℤ) × (ℤ × ℤ)) × Option ((ℤ × ℤ) × (ℤ × ℤ))
  | 0, _, seen => (seen, none)
  | fuel + 1, st, seen =>
    if seen.contains st then (seen, some st)
    else
      match moorStep m st.1 st.2 with
      | none => (seen ++ [st], none)
      | some st' => traceOrbit m fuel st' (seen ++ [st])

/-- Moore-neighbour boundary trace of the component whose row-major first
pixel is `s` (its west neighbour is then background): the periodic part of
the orbit, rotated to start at `s`. -/
def traceBoundary (m : Raster) (s : ℤ × ℤ) : List (ℤ × ℤ) :=
  let b0 : ℤ × ℤ := (s.1 - 1, s.2)
  let or2 := traceOrbit m (4 * (rHeight m * rWidth m) + 8) (s, b0) []
  match or2.2 with
  | none => or2.1.map Prod.fst
  | some st =>
    let cyc := or2.1.drop (or2.1.findIdx (fun t => t == st))
    let pix := cyc.map Prod.fst
    let i := pix.findIdx (fun q => q == s)
    pix.drop i ++ pix.take i

/-- Models `CHAIN_APPROX_SIMPLE`: drop every pixel of the cyclic boundary
whose incoming and outgoing steps have the same direction, keeping only
segment endpoints. -/
def compressCyclic (l : List (ℤ × ℤ)) : List (ℤ × ℤ) :=
  if l.length < 3 then l
  else
    let n := l.length
    ((List.range n).filter (fun i =>
      let p := l.getD ((i + n - 1) % n) (0, 0)
      let c := l.getD i (0, 0)
      let q := l.getD ((i + 1) % n) (0, 0)
      !((c.1 - p.1, c.2 - p.2) == (q.1 - c.1, q.2 - c.2)))).map
      (fun i => l.getD i (0, 0))

/-- Models `cv2.findContours(m, RETR_EXTERNAL, CHAIN_APPROX_SIMPLE)`
(external OpenCV, line 209): the outer boundary of each 8-connected
foreground component, discovered in row-major order, as compressed pixel
chains in `(x, y)` coordinates.  (The library lists nested components
inside holes of others separately under RETR_EXTERNAL; no raster in this
development nests components.) -/
def findContours (m : Raster) : List (List (ℤ × ℤ)) :=
  (components8 m).map (fun comp => compressCyclic (traceBoundary m (comp.headD (0, 0))))

/-- Models `cv2.contourArea` (external OpenCV, line 216): absolute value of
the shoelace sum over the closed vertex chain, halved. -/
def contourArea (c : List (ℤ × ℤ)) : ℚ :=
  match c with
  | [] => 0
  | p :: _ =>
    Rat.divInt |((c.zip (c.drop 1 ++ [p])).map
      (fun pq => pq.1.1 * pq.2.2 - pq.2.1 * pq.1.2)).sum| 2

/-- The 3-by-3 structuring element: all offsets of `np.ones((3, 3))`. -/
def offs9 : List (ℤ × ℤ) :=
  [(-1, -1), (0, -1), (1, -1), (-1, 0), (0, 0), (1, 0), (-1, 1), (0, 1), (1, 1)]

/-- Binary erosion with the 3-by-3 element; out-of-bounds neighbours do not
erode (OpenCV's default border value for erosion). -/
def erode3 (m : Raster) : Raster :=
  (List.range (rHeight m)).map (fun y =>
    (List.range (rWidth m)).map (fun x =>
      offs9.all (fun d =>
        !(inBds m ((x : ℤ) + d.1) ((y : ℤ) + d.2)) ||
          getPix m ((x : ℤ) + d.1) ((y : ℤ) + d.2))))

/-- Binary dilation with the 3-by-3 element; out-of-bounds neighbours are
background (OpenCV's default border value for dilation). -/
def dilate3 (m : Raster) : Raster :=
  (List.range (rHeight m)).map (fun y =>
    (List.range (rWidth m)).map (fun x =>
      offs9.any (fun d =>
        inBds m ((x : ℤ) + d.1) ((y : ℤ) + d.2) &&
          getPix m ((x : ℤ) + d.1) ((y : ℤ) + d.2))))

/-- Iterate a raster transformation. -/
def iterN (f : Raster → Raster) : ℕ → Raster → Raster
  | 0, m => m
  | n + 1, m => iterN f n (f m)

/-- Models `cv2.morphologyEx(..., MORPH_OPEN, 3x3, iterations=n)`:
`n` erosions then `n` dilations. -/
def openN (n : ℕ) (m : Raster) : Raster := iterN dilate3 n (iterN erode3 n m)

/-- Models `cv2.morphologyEx(..., MORPH_CLOSE, 3x3, iterations=n)`:
`n` dilations then `n` erosions. -/
def closeN (n : ℕ) (m : Raster) : Raster := iterN erode3 n (iterN dilate3 n m)

/-- Embeds `_morph_clean` (lines 109-116): opening if `DO_OPEN`, then
closing if `DO_CLOSE`, with `MORPH_ITERS` iterations. -/
def morph_clean (p : Params) (m : Raster) : Raster :=
  let m1 := if p.do_open then openN p.morph_iters m else m
  if p.do_close then closeN p.morph_iters m1 else m1

/-- One entry of the `polys` list built by `export_contours_from_masks`
(lines 227-233). -/
structure Polygon where
  label : String
  outer : List (ℤ × ℤ)
  holes : List (List (ℤ × ℤ))
  area_px : ℚ
  mask_index : ℕ
deriving DecidableEq

/-- The JSON payload written by the exporter (lines 239-244). -/
structure Payload where
  image_w : ℕ
  image_h : ℕ
  polygons : List Polygon
  notes : String
deriving DecidableEq

/-- Descending-area comparison used on contours: `sorted(contours,
key=cv2.contourArea, reverse=True)` is a stable descending sort. -/
def contourLe (a b : List (ℤ × ℤ)) : Bool := decide (contourArea b ≤ contourArea a)

/-- Descending-area comparison on polygons: `polys.sort(key=..., reverse=True)`. -/
def polyLe (a b : Polygon) : Bool := decide (b.area_px ≤ a.area_px)

/-- The body of the per-mask loop of `export_contours_from_masks`
(lines 205-235): clean the raster, trace contours, keep only the largest
contour when its area reaches `min_contour_area`, simplify it, and keep the
polygon only when 3 or more points remain. -/
noncomputable def processMask (p : Params) (mi : ℕ) (m : Raster) : Option Polygon :=
  let m2 := morph_clean p m
  let contours := findContours m2
  if contours.isEmpty then none
  else
    let c := (contours.mergeSort contourLe).headD []
    let area := contourArea c
    if area < p.min_contour_area then none
    else
      let poly := simplify_polygon p.eps_fraction p.max_points c
      if poly.length < 3 then none
      else some ⟨"object", poly, [], area, mi⟩

/-- The `polys` list accumulated by the loop, with `mi` the running mask
index. -/
noncomputable def rawPolysFrom (p : Params) : ℕ → List Raster → List Polygon
  | _, [] => []
  | mi, m :: rest =>
    match processMask p mi m with
    | none => rawPolysFrom p (mi + 1) rest
    | some poly => poly :: rawPolysFrom p (mi + 1) rest

/-- The `polys` list before the final sort. -/
noncomputable def rawPolys (p : Params) (masks : List Raster) : List Polygon :=
  rawPolysFrom p 0 masks

/-- Embeds `export_contours_from_masks` (lines 201-246): per-mask polygons,
stably sorted by `area_px` descending, wrapped with the raster dimensions
and the fixed note. -/
noncomputable def export_contours_from_masks
    (p : Params) (masks : List Raster) (w h : ℕ) : Payload :=
  ⟨w, h, (rawPolys p masks).mergeSort polyLe,
   "FastSAM per-instance masks. Background excluded via area + border-touch + hole heuristics."⟩

/-- Descending-area comparison on whole masks, for `np.argsort(-areas)` in
`main` (line 308).  NumPy's default sort is unspecified on ties; the stable
model is exercised below only on masks of distinct areas. -/
def maskLe (a b : Raster) : Bool := decide (countTrue b ≤ countTrue a)

/-- The area-descending mask order established by `main` (lines 307-310). -/
def sortMasksDesc (masks : List Raster) : List Raster := masks.mergeSort maskLe

/-- The kept (non-background) masks, in sorted order (`kept_masks`,
lines 316-338). -/
def keptMasks (p : Params) (masks : List Raster) : List Raster :=
  (sortMasksDesc masks).filter (fun m => !(is_background_like p m).1)

/-- Positions (in the sorted mask sequence) of the kept masks. -/
def keptIndicesFrom (p : Params) : ℕ → List Raster → List ℕ
  | _, [] => []
  | i, m :: rest =>
    if (is_background_like p m).1 then keptIndicesFrom p (i + 1) rest
    else i :: keptIndicesFrom p (i + 1) rest

/-- Zero-based indices, into the area-sorted input mask sequence, of the
masks that survive classification. -/
def keptIndices (p : Params) (masks : List Raster) : List ℕ :=
  keptIndicesFrom p 0 (sortMasksDesc masks)

/-- The mask-to-payload composition performed by `main` (lines 306-383):
sort masks by area descending, drop background-like masks, and export
contours of the kept masks. -/
noncomputable def main_pipeline (p : Params) (masks : List Raster) (w h : ℕ) : Payload :=
  export_contours_from_masks p (keptMasks p masks) w h

/-- Rectangular test mask: a solid block `[y0, y1] × [x0, x1]` inside an
`h`-by-`w` raster. -/
def blockRaster (h w y0 y1 x0 x1 : ℕ) : Raster :=
  (List.range h).map (fun y => (List.range w).map (fun x =>
    decide (y0 ≤ y) && decide (y ≤ y1) && decide (x0 ≤ x) && decide (x ≤ x1)))

/-- All-foreground test raster. -/
def fullRaster (h w : ℕ) : Raster := List.replicate h (List.replicate w true)

/-- Small-scale run configuration: the source tunables scaled down to
7-to-12 pixel rasters (noise floor 5 px, border band 1 px, minimum contour
area 2 px, minimum hole area 50 px; the fractional thresholds and the
simplifier settings keep their source values). -/
def smallParams : Params :=
  ⟨5, 45 / 100, 10 / 100, 1, true, 8 / 100, 50, 2, 1 / 100, 256, true, false, 1⟩

/-- A 7-by-7 all-foreground mask (classified background by rule 2). -/
def maskA7 : Raster := fullRaster 7 7

/-- A 7-by-7 mask holding a 3-by-3 block clear of the border (kept). -/
def maskB7 : Raster := blockRaster 7 7 2 4 2 4

/-- A 7-by-11 mask holding a 3-by-3 block at columns 2-4. -/
def maskC : Raster := blockRaster 7 11 2 4 2 4

/-- A 7-by-11 mask holding a 3-by-3 block at columns 6-8 (same area as
`maskC`). -/
def maskD : Raster := blockRaster 7 11 2 4 6 8

/-- A 9-by-12 mask holding two disjoint blocks: a 4-by-4 block (columns
2-5) and a 3-by-3 block (columns 8-10). -/
def twoBlocks : Raster :=
  (List.range 9).map (fun y => (List.range 12).map (fun x =>
    (decide (2 ≤ y) && decide (y ≤ 5) && decide (2 ≤ x) && decide (x ≤ 5)) ||
    (decide (2 ≤ y) && decide (y ≤ 4) && decide (8 ≤ x) && decide (x ≤ 10))))

/-- A 10-by-10 mask whose only foreground pixel is the corner `(0, 0)` --
the flood-fill seed of `hole_frac`. -/
def cornerMask : Raster := blockRaster 10 10 0 0 0 0

/-- A 5-by-5 ring: all foreground except the centred 3-by-3 square, which
is a genuine enclosed hole of 9 pixels over 16 foreground pixels. -/
def ringMask : Raster :=
  (List.range 5).map (fun y => (List.range 5).map (fun x =>
    !(decide (1 ≤ y) && decide (y ≤ 3) && decide (1 ≤ x) && decide (x ≤ 3))))

/-- A 4-by-4 mask whose top two rows are foreground: 6 of its 8 pixels lie
in the width-1 border band. -/
def maskM5 : Raster := blockRaster 4 4 0 1 0 3

/-- The source configuration with the hole heuristic disabled and
`min_hole_area_px` scaled to 5. -/
def paramsNoHole : Params :=
  ⟨150, 45 / 100, 10 / 100, 3, false, 8 / 100, 5, 200, 1 / 100, 256, true, false, 1⟩

/-- A 10-by-10 all-foreground mask: area 100 satisfies both rule 1
(`100 < 150`) and rule 2 (`1 ≥ 0.45`) under the source defaults. -/
def tenTen : Raster := fullRaster 10 10

/-- The collinear 3-point input on which the simplifier returns exactly
2 points. -/
def colPoly : List (ℤ × ℤ) := [(0, 0), (10, 0), (20, 0)]

/-! ### Helper lemmas -/

/-- The real-tolerance reduction at tolerance 1 agrees with its computable
twin. -/
theorem approxPolyDP_one (pts : List Pt) :
    approxPolyDP (1 : ℝ) pts = approxPolyDPOne pts := by
  unfold approxPolyDP approxPolyDPOne
  have h1 : (fun d2 : ℤ => decide ((d2 : ℝ) > (1 : ℝ) * (1 : ℝ))) =
      fun d2 : ℤ => decide (d2 > 1) := by
    funext d2
    rw [decide_eq_decide]
    constructor
    · intro hlt; exact_mod_cast hlt
    · intro hlt
      rw [one_mul]
      exact_mod_cast hlt
  have h2 : (fun c2 d2 : ℤ => decide ((c2 : ℝ) > (1 : ℝ) * (1 : ℝ) * (d2 : ℝ))) =
      fun c2 d2 : ℤ => decide (c2 > d2) := by
    funext c2 d2
    rw [decide_eq_decide, one_mul, one_mul]
    constructor
    · intro hlt; exact_mod_cast hlt
    · intro hlt; exact_mod_cast hlt
  rw [h1, h2]

/-- The tolerance is exactly 1 whenever the perimeter is at most 100
(`eps = max(1.0, 0.01 * peri)`). -/
theorem epsOf_eq_one (pts : List Pt) (q : ℝ) (harc : arcLengthClosed pts = q)
    (h100 : q ≤ 100) : epsOf (1 / 100) pts = (1 : ℝ) := by
  unfold epsOf
  rw [harc, max_eq_left]
  push_cast
  nlinarith

/-- Square root of the real literal 4. -/
theorem sqrt_r4 : Real.sqrt (4 : ℝ) = 2 := by
  rw [show ((4 : ℝ)) = 2 * 2 by norm_num]
  exact Real.sqrt_mul_self (by norm_num)

/-- Square root of the real literal 9. -/
theorem sqrt_r9 : Real.sqrt (9 : ℝ) = 3 := by
  rw [show ((9 : ℝ)) = 3 * 3 by norm_num]
  exact Real.sqrt_mul_self (by norm_num)

/-- Square root of the real literal 100. -/
theorem sqrt_r100 : Real.sqrt (100 : ℝ) = 10 := by
  rw [show ((100 : ℝ)) = 10 * 10 by norm_num]
  exact Real.sqrt_mul_self (by norm_num)

/-- Square root of the real literal 400. -/
theorem sqrt_r400 : Real.sqrt (400 : ℝ) = 20 := by
  rw [show ((400 : ℝ)) = 20 * 20 by norm_num]
  exact Real.sqrt_mul_self (by norm_num)

/-- Perimeter of the 2-pixel-gap square contour of `maskB7`/`maskC`. -/
theorem arc_sqB : arcLengthClosed [((2 : ℤ), (2 : ℤ)), (2, 4), (4, 4), (4, 2)] = 8 := by
  simp [arcLengthClosed, sqDist, List.zip]
  norm_num [sqrt_r4]

/-- Perimeter of the square contour of `maskD`. -/
theorem arc_sqD : arcLengthClosed [((6 : ℤ), (2 : ℤ)), (6, 4), (8, 4), (8, 2)] = 8 := by
  simp [arcLengthClosed, sqDist, List.zip]
  norm_num [sqrt_r4]

/-- Perimeter of the 3-pixel-gap square contour of `twoBlocks`. -/
theorem arc_sqBig : arcLengthClosed [((2 : ℤ), (2 : ℤ)), (2, 5), (5, 5), (5, 2)] = 12 := by
  simp [arcLengthClosed, sqDist, List.zip]
  norm_num [sqrt_r9]

/-- Perimeter of the collinear 3-point polygon `colPoly`. -/
theorem arc_col : arcLengthClosed [((0 : ℤ), (0 : ℤ)), (10, 0), (20, 0)] = 40 := by
  simp [arcLengthClosed, sqDist, List.zip]
  norm_num [sqrt_r100, sqrt_r400]

/-- The simplifier fixes the square contour of `maskB7`/`maskC`. -/
theorem simplify_sqB : simplify_polygon (1 / 100) 256 [(2, 2), (2, 4), (4, 4), (4, 2)] =
    [(2, 2), (2, 4), (4, 4), (4, 2)] := by
  simp only [simplify_polygon]
  rw [if_neg (by norm_num)]
  rw [epsOf_eq_one _ 8 arc_sqB (by norm_num), approxPolyDP_one]
  decide

/-- The simplifier fixes the square contour of `maskD`. -/
theorem simplify_sqD : simplify_polygon (1 / 100) 256 [(6, 2), (6, 4), (8, 4), (8, 2)] =
    [(6, 2), (6, 4), (8, 4), (8, 2)] := by
  simp only [simplify_polygon]
  rw [if_neg (by norm_num)]
  rw [epsOf_eq_one _ 8 arc_sqD (by norm_num), approxPolyDP_one]
  decide

/-- The simplifier fixes the large square contour of `twoBlocks`. -/
theorem simplify_sqBig : simplify_polygon (1 / 100) 256 [(2, 2), (2, 5), (5, 5), (5, 2)] =
    [(2, 2), (2, 5), (5, 5), (5, 2)] := by
  simp only [simplify_polygon]
  rw [if_neg (by norm_num)]
  rw [epsOf_eq_one _ 12 arc_sqBig (by norm_num), approxPolyDP_one]
  decide

/-- On the collinear 3-point input the reduction keeps only the two extreme
vertices. -/
theorem simplify_col : simplify_polygon (1 / 100) 256 colPoly = [(0, 0), (20, 0)] := by
  simp only [simplify_polygon, colPoly]
  rw [if_neg (by norm_num)]
  rw [epsOf_eq_one _ 40 arc_col (by norm_num), approxPolyDP_one]
  decide

set_option maxRecDepth 40000 in
/-- Contours of the cleaned `maskB7`. -/
theorem contours_b7 : findContours (morph_clean smallParams maskB7) =
    [[(2, 2), (2, 4), (4, 4), (4, 2)]] := by decide

set_option maxRecDepth 40000 in
/-- Contours of the cleaned `maskC`. -/
theorem contours_c : findContours (morph_clean smallParams maskC) =
    [[(2, 2), (2, 4), (4, 4), (4, 2)]] := by decide

set_option maxRecDepth 40000 in
/-- Contours of the cleaned `maskD`. -/
theorem contours_d : findContours (morph_clean smallParams maskD) =
    [[(6, 2), (6, 4), (8, 4), (8, 2)]] := by decide

set_option maxRecDepth 40000 in
/-- Contours of the cleaned `twoBlocks`: the larger component first. -/
theorem contours_two : findContours (morph_clean smallParams twoBlocks) =
    [[(2, 2), (2, 5), (5, 5), (5, 2)], [(8, 2), (8, 4), (10, 4), (10, 2)]] := by decide

/-- The comparison `contourLe` is transitive. -/
theorem contourLe_trans : ∀ a b c : List (ℤ × ℤ),
    contourLe a b → contourLe b c → contourLe a c := by
  intro a b c h1 h2
  simp only [contourLe, decide_eq_true_eq] at h1 h2 ⊢
  exact le_trans h2 h1

/-- The comparison `contourLe` is total. -/
theorem contourLe_total : ∀ a b : List (ℤ × ℤ), contourLe a b || contourLe b a := by
  intro a b
  simp only [contourLe]
  rcases le_total (contourArea b) (contourArea a) with h | h <;> simp [h]

/-- The comparison `polyLe` is transitive. -/
theorem polyLe_trans : ∀ a b c : Polygon, polyLe a b → polyLe b c → polyLe a c := by
  intro a b c h1 h2
  simp only [polyLe, decide_eq_true_eq] at h1 h2 ⊢
  exact le_trans h2 h1

/-- The comparison `polyLe` is total. -/
theorem polyLe_total : ∀ a b : Polygon, polyLe a b || polyLe b a := by
  intro a b
  simp only [polyLe]
  rcases le_total b.area_px a.area_px with h | h <;> simp [h]

/-- The comparison `maskLe` is transitive. -/
theorem maskLe_trans : ∀ a b c : Raster, maskLe a b → maskLe b c → maskLe a c := by
  intro a b c h1 h2
  simp only [maskLe, decide_eq_true_eq] at h1 h2 ⊢
  exact le_trans h2 h1

/-- The comparison `maskLe` is total. -/
theorem maskLe_total : ∀ a b : Raster, maskLe a b || maskLe b a := by
  intro a b
  simp only [maskLe]
  rcases le_total (countTrue b) (countTrue a) with h | h <;> simp [h]

/-- A two-element list whose elements are already in order is fixed by
`mergeSort`. -/
theorem mergeSort_pair_le {α : Type} {le : α → α → Bool}
    (htr : ∀ a b c, le a b → le b c → le a c) (hto : ∀ a b, le a b || le b a)
    {a b : α} (h : le a b) : [a, b].mergeSort le = [a, b] :=
  ((List.pair_sublist_mergeSort htr hto h (List.Sublist.refl _)).eq_of_length
    (by simp)).symm

/-- Processing `maskB7` yields the square polygon of area 4. -/
theorem processMask_b7 (mi : ℕ) : processMask smallParams mi maskB7 =
    some ⟨"object", [(2, 2), (2, 4), (4, 4), (4, 2)], [], 4, mi⟩ := by
  have hmin : smallParams.min_contour_area = 2 := rfl
  have hf : smallParams.eps_fraction = 1 / 100 := rfl
  have hM : smallParams.max_points = 256 := rfl
  have ha : contourArea [((2 : ℤ), (2 : ℤ)), (2, 4), (4, 4), (4, 2)] = 4 := by decide
  simp only [processMask, contours_b7, List.mergeSort_singleton, List.headD_cons,
    ha, hmin, hf, hM, simplify_sqB, List.isEmpty_cons]
  norm_num

/-- Processing `maskC` yields the square polygon of area 4. -/
theorem processMask_c (mi : ℕ) : processMask smallParams mi maskC =
    some ⟨"object", [(2, 2), (2, 4), (4, 4), (4, 2)], [], 4, mi⟩ := by
  have hmin : smallParams.min_contour_area = 2 := rfl
  have hf : smallParams.eps_fraction = 1 / 100 := rfl
  have hM : smallParams.max_points = 256 := rfl
  have ha : contourArea [((2 : ℤ), (2 : ℤ)), (2, 4), (4, 4), (4, 2)] = 4 := by decide
  simp only [processMask, contours_c, List.mergeSort_singleton, List.headD_cons,
    ha, hmin, hf, hM, simplify_sqB, List.isEmpty_cons]
  norm_num

/-- Processing `maskD` yields the square polygon of area 4. -/
theorem processMask_d (mi : ℕ) : processMask smallParams mi maskD =
    some ⟨"object", [(6, 2), (6, 4), (8, 4), (8, 2)], [], 4, mi⟩ := by
  have hmin : smallParams.min_contour_area = 2 := rfl
  have hf : smallParams.eps_fraction = 1 / 100 := rfl
  have hM : smallParams.max_points = 256 := rfl
  have ha : contourArea [((6 : ℤ), (2 : ℤ)), (6, 4), (8, 4), (8, 2)] = 4 := by decide
  simp only [processMask, contours_d, List.mergeSort_singleton, List.headD_cons,
    ha, hmin, hf, hM, simplify_sqD, List.isEmpty_cons]
  norm_num

/-- Processing the two-component `twoBlocks` keeps only the larger
component's polygon (area 9) is produced. -/
theorem processMask_two (mi : ℕ) : processMask smallParams mi twoBlocks =
    some ⟨"object", [(2, 2), (2, 5), (5, 5), (5, 2)], [], 9, mi⟩ := by
  have hmin : smallParams.min_contour_area = 2 := rfl
  have hf : smallParams.eps_fraction = 1 / 100 := rfl
  have hM : smallParams.max_points = 256 := rfl
  have ha : contourArea [((2 : ℤ), (2 : ℤ)), (2, 5), (5, 5), (5, 2)] = 9 := by decide
  have hsort : [[((2 : ℤ), (2 : ℤ)), (2, 5), (5, 5), (5, 2)],
      [((8 : ℤ), (2 : ℤ)), (8, 4), (10, 4), (10, 2)]].mergeSort contourLe =
      [[(2, 2), (2, 5), (5, 5), (5, 2)], [(8, 2), (8, 4), (10, 4), (10, 2)]] :=
    mergeSort_pair_le contourLe_trans contourLe_total (by decide)
  simp only [processMask, contours_two, hsort, List.headD_cons,
    ha, hmin, hf, hM, simplify_sqBig, List.isEmpty_cons]
  norm_num

/-- Evaluation rule for `border_touch_frac` on a non-empty mask. -/
theorem border_touch_frac_eval (m : Raster) (band : ℤ) (t n : ℕ)
    (hn : countTrue m = n) (h0 : n ≠ 0)
    (ht : borderTouchCount m (max 1 band.toNat) = t) :
    border_touch_frac m band = (t : ℚ) / (n : ℚ) := by
  have h1 : ¬ ((n : ℚ) ≤ 1 / 1000000000) := by
    have hge : (1 : ℚ) ≤ (n : ℚ) := by exact_mod_cast Nat.one_le_iff_ne_zero.mpr h0
    intro hc
    linarith
  simp only [border_touch_frac, hn, ht, if_neg h1]

/-- Evaluation rule for `hole_frac` on a non-empty mask. -/
theorem hole_frac_eval (m : Raster) (minh : ℕ) (t n : ℕ)
    (hn : countTrue m = n) (h0 : n ≠ 0) (ht : holeAreaBig m minh = t) :
    hole_frac m minh = (t : ℚ) / (n : ℚ) := by
  have h1 : ¬ ((n : ℚ) ≤ 1 / 1000000000) := by
    have hge : (1 : ℚ) ≤ (n : ℚ) := by exact_mod_cast Nat.one_le_iff_ne_zero.mpr h0
    intro hc
    linarith
  simp only [hole_frac, hn, ht, if_neg h1]

/-- The statistics record carried by every classification outcome. -/
theorem is_background_like_stats (p : Params) (m : Raster) :
    (is_background_like p m).2.2 = ⟨countTrue m,
      if 0 < rHeight m * rWidth m then
        (countTrue m : ℚ) / ((rHeight m : ℚ) * (rWidth m : ℚ)) else 0,
      border_touch_frac m p.border_band_px,
      if p.enable_hole_heuristic then hole_frac m p.min_hole_area_px else 0⟩ := by
  simp only [is_background_like]
  split_ifs <;> rfl

/-- The all-foreground 7-by-7 mask is classified background (rule 2). -/
theorem bg_flag_A7 : (is_background_like smallParams maskA7).1 = true := by
  have h1 : countTrue maskA7 = 49 := by decide
  have hh : rHeight maskA7 = 7 := by decide
  have hw : rWidth maskA7 = 7 := by decide
  have hm : smallParams.min_instance_area_px = 5 := rfl
  have hth : smallParams.bg_area_frac_th = 45 / 100 := rfl
  simp only [is_background_like, h1, hh, hw, hm, hth]
  norm_num

/-- The 3-by-3 block mask `maskB7` is kept by the classifier. -/
theorem bg_flag_B7 : (is_background_like smallParams maskB7).1 = false := by
  have h1 : countTrue maskB7 = 9 := by decide
  have hh : rHeight maskB7 = 7 := by decide
  have hw : rWidth maskB7 = 7 := by decide
  have hb : border_touch_frac maskB7 smallParams.border_band_px = (0 : ℚ) / (9 : ℚ) :=
    border_touch_frac_eval _ _ 0 9 (by decide) (by norm_num) (by decide)
  have hhole : hole_frac maskB7 smallParams.min_hole_area_px = (0 : ℚ) / (9 : ℚ) :=
    hole_frac_eval _ _ 0 9 (by decide) (by norm_num) (by decide)
  have hm : smallParams.min_instance_area_px = 5 := rfl
  have hth : smallParams.bg_area_frac_th = 45 / 100 := rfl
  have hbt : smallParams.border_touch_frac_th = 10 / 100 := rfl
  have hht : smallParams.hole_frac_th = 8 / 100 := rfl
  have hen : smallParams.enable_hole_heuristic = true := rfl
  simp only [is_background_like, h1, hh, hw, hb, hhole, hm, hth, hbt, hht, hen]
  norm_num

/-- What a successful `processMask` guarantees: the polygon records the
loop index, its area reaches the contour-area floor, its area is the
contourArea of a largest contour of the cleaned raster, and its outer ring
has at least 3 vertices. -/
theorem processMask_some (p : Params) (mi : ℕ) (m : Raster) (poly : Polygon)
    (h : processMask p mi m = some poly) :
    poly.mask_index = mi ∧ p.min_contour_area ≤ poly.area_px ∧
      (∀ c ∈ findContours (morph_clean p m), contourArea c ≤ poly.area_px) ∧
      3 ≤ poly.outer.length := by
  simp only [processMask] at h
  set l := findContours (morph_clean p m) with hl
  by_cases he : l.isEmpty
  · rw [if_pos he] at h
    exact absurd h (by simp)
  · rw [if_neg he] at h
    set c0 := (l.mergeSort contourLe).headD [] with hc0
    by_cases h1 : contourArea c0 < p.min_contour_area
    · rw [if_pos h1] at h
      exact absurd h (by simp)
    · rw [if_neg h1] at h
      by_cases h2 : (simplify_polygon p.eps_fraction p.max_points c0).length < 3
      · rw [if_pos h2] at h
        exact absurd h (by simp)
      · rw [if_neg h2] at h
        have hpoly := (Option.some.inj h).symm
        have hmax : ∀ c ∈ l, contourArea c ≤ contourArea c0 := by
          intro c hc
          have hne : l ≠ [] := by
            intro hnil
            rw [hnil] at he
            exact he (by simp)
          obtain ⟨x, t, hxt⟩ : ∃ x t, l.mergeSort contourLe = x :: t := by
            cases hms : l.mergeSort contourLe with
            | nil =>
              have hlen : (l.mergeSort contourLe).length = l.length :=
                List.length_mergeSort l
              rw [hms] at hlen
              exact absurd (List.length_eq_zero.mp hlen.symm) hne
            | cons x t => exact ⟨x, t, rfl⟩
          have hx : c0 = x := by rw [hc0, hxt, List.headD_cons]
          have hmem : c ∈ l.mergeSort contourLe := List.mem_mergeSort.mpr hc
          rw [hxt] at hmem
          rcases List.mem_cons.mp hmem with rfl | hmem2
          · rw [hx]
          · have hp := List.sorted_mergeSort contourLe_trans contourLe_total l
            rw [hxt] at hp
            have := (List.pairwise_cons.mp hp).1 c hmem2
            rw [hx]
            simpa [contourLe, decide_eq_true_eq] using this
        subst hpoly
        exact ⟨rfl, le_of_not_lt h1, hmax, le_of_not_lt h2⟩

/-- Every polygon in the accumulated list originates at a definite position
in the mask list, and its `mask_index` is the running loop index there. -/
theorem rawPolysFrom_mem (p : Params) :
    ∀ (masks : List Raster) (k : ℕ) (poly : Polygon),
      poly ∈ rawPolysFrom p k masks →
      ∃ i, i < masks.length ∧ poly.mask_index = k + i ∧
        processMask p (k + i) (masks.getD i []) = some poly := by
  intro masks
  induction masks with
  | nil => intro k poly h; simp [rawPolysFrom] at h
  | cons m rest ih =>
    intro k poly h
    simp only [rawPolysFrom] at h
    cases hpm : processMask p k m with
    | none =>
      rw [hpm] at h
      obtain ⟨i, hi, hidx, hp⟩ := ih (k + 1) poly h
      refine ⟨i + 1, by simpa using hi, by omega, ?_⟩
      simpa [show k + (i + 1) = k + 1 + i by omega] using hp
    | some q =>
      rw [hpm] at h
      rcases List.mem_cons.mp h with rfl | h2
      · refine ⟨0, by simp, ?_, by simpa using hpm⟩
        have := (processMask_some p k m poly hpm).1
        omega
      · obtain ⟨i, hi, hidx, hp⟩ := ih (k + 1) poly h2
        refine ⟨i + 1, by simpa using hi, by omega, ?_⟩
        simpa [show k + (i + 1) = k + 1 + i by omega] using hp

/-- Converse: a mask whose processing succeeds contributes its polygon. -/
theorem mem_rawPolysFrom (p : Params) :
    ∀ (masks : List Raster) (k i : ℕ) (poly : Polygon),
      i < masks.length → processMask p (k + i) (masks.getD i []) = some poly →
      poly ∈ rawPolysFrom p k masks := by
  intro masks
  induction masks with
  | nil => intro k i poly hi; simp at hi
  | cons m rest ih =>
    intro k i poly hi hp
    simp only [rawPolysFrom]
    cases i with
    | zero =>
      simp only [List.getD_cons_zero, Nat.add_zero] at hp
      rw [hp]
      exact List.mem_cons_self _ _
    | succ j =>
      have hj : j < rest.length := by simpa using hi
      have hp' : processMask p (k + 1 + j) (rest.getD j []) = some poly := by
        simpa [show k + 1 + j = k + (j + 1) by omega] using hp
      have hmem := ih (k + 1) j poly hj hp'
      cases processMask p k m with
      | none => exact hmem
      | some q => exact List.mem_cons_of_mem _ hmem

/-- Lower bound on the mask indices recorded from position `k` onward. -/
theorem rawPolysFrom_le (p : Params) (masks : List Raster) (k : ℕ) (poly : Polygon)
    (h : poly ∈ rawPolysFrom p k masks) : k ≤ poly.mask_index := by
  obtain ⟨i, _, hidx, _⟩ := rawPolysFrom_mem p masks k poly h
  omega

/-- The accumulated polygons carry strictly increasing mask indices. -/
theorem rawPolysFrom_pairwise (p : Params) :
    ∀ (masks : List Raster) (k : ℕ),
      (rawPolysFrom p k masks).Pairwise (fun a b => a.mask_index < b.mask_index) := by
  intro masks
  induction masks with
  | nil => intro k; simp [rawPolysFrom]
  | cons m rest ih =>
    intro k
    simp only [rawPolysFrom]
    cases hpm : processMask p k m with
    | none => exact ih (k + 1)
    | some q =>
      refine List.pairwise_cons.mpr ⟨?_, ih (k + 1)⟩
      intro b hb
      have h1 := (processMask_some p k m q hpm).1
      have h2 := rawPolysFrom_le p rest (k + 1) b hb
      omega

/-- The resampling step never returns more than `M` vertices. -/
theorem resampleTo_length (M : ℕ) (l : List Pt) : (resampleTo M l).length ≤ M := by
  match M with
  | 0 => simp [resampleTo]
  | 1 =>
    simp only [resampleTo, List.length_take]
    omega
  | n + 2 => simp [resampleTo]

/-- C1 (amended): the simplifier never returns more than `max_points`
vertices, and inputs of fewer than 3 points give the empty sequence.  (The
claimed lower bound of 3 points fails: see the counterexample, where a
degenerate input yields exactly 2 points, which callers filter out with
their `len(poly) < 3` checks.) -/
theorem c1_point_budget (f : ℚ) (M : ℕ) (poly : List (ℤ × ℤ)) :
    (simplify_polygon f M poly).length ≤ M ∧
      (poly.length < 3 → simplify_polygon f M poly = []) := by
  constructor
  · simp only [simplify_polygon]
    split_ifs with h3 hM hh hh
    · simp
    · simpa [List.length_dropLast] using Nat.sub_le _ _ |>.trans (resampleTo_length M _)
    · exact resampleTo_length M _
    · simp only [List.length_dropLast]
      omega
    · omega
  · intro h3
    simp [simplify_polygon, h3]

/-- C1 witness: the amended bound at a concrete 1-point input. -/
theorem c1_point_budget_witness :
    (simplify_polygon (1 / 100) 256 [((0 : ℤ), (0 : ℤ))]).length ≤ 256 ∧
      simplify_polygon (1 / 100) 256 [((0 : ℤ), (0 : ℤ))] = [] :=
  ⟨(c1_point_budget (1 / 100) 256 _).1, (c1_point_budget (1 / 100) 256 _).2 (by norm_num)⟩

/-- C1 counterexample: on the collinear 3-point input `colPoly` with
`eps_fraction = 0.01 > 0` and `max_points = 256 ≥ 3` the simplifier
returns exactly 2 points -- neither 0 nor within `[3, max_points]`. -/
theorem c1_cex : (simplify_polygon (1 / 100) 256 colPoly).length = 2 ∧
    ¬ ((simplify_polygon (1 / 100) 256 colPoly).length = 0 ∨
       (3 ≤ (simplify_polygon (1 / 100) 256 colPoly).length ∧
        (simplify_polygon (1 / 100) 256 colPoly).length ≤ 256)) := by
  rw [simplify_col]
  norm_num

/-- C5 (amended): a non-positive border band width is silently clamped to a
1-pixel band (`b = max(1, int(band_px))`); no component rejects the value. -/
theorem c5_band_clamped (m : Raster) (b : ℤ) (hb : b ≤ 0) :
    border_touch_frac m b = border_touch_frac m 1 := by
  simp only [border_touch_frac, Int.toNat_of_nonpos hb]
  rfl

/-- C5 witness: the amended clamping behaviour at band width `-3`. -/
theorem c5_band_clamped_witness :
    (-3 : ℤ) ≤ 0 ∧ border_touch_frac maskM5 (-3) = border_touch_frac maskM5 1 :=
  ⟨by norm_num, c5_band_clamped maskM5 (-3) (by norm_num)⟩

/-- C5 counterexample: `border_touch_frac` with the non-sensical band width
0 does not fail -- it proceeds with the substituted 1-pixel band and
returns the ordinary value 3/4 on `maskM5`. -/
theorem c5_cex : border_touch_frac maskM5 0 = border_touch_frac maskM5 1 ∧
    border_touch_frac maskM5 0 = 3 / 4 := by
  have h1 := c5_band_clamped maskM5 0 le_rfl
  refine ⟨h1, ?_⟩
  rw [h1, border_touch_frac_eval maskM5 1 6 8 (by decide) (by norm_num) (by decide)]
  norm_num

set_option maxRecDepth 40000 in
/-- C8: the value of `hole_frac` on the 10-by-10 mask whose only foreground pixel is the
flood-fill seed `(0, 0)`.  The seed is foreground, so the flood fill of the
inverted mask is a no-op and all 99 exterior background pixels -- one
8-connected component, above the 80-pixel floor -- are counted as hole
area, giving `hole_frac = 99/1` where the claim requires exterior
background never to count (0). -/
theorem c8_seed_covered : hole_frac cornerMask 80 = 99 := by
  rw [hole_frac_eval cornerMask 80 99 1 (by decide) (by norm_num) (by decide)]
  norm_num

/-- C10: with the hole heuristic disabled the reported statistics carry
`hole_frac = 0.0` whatever the mask's enclosed-background content. -/
theorem c10_disabled_hole_stat (p : Params) (m : Raster)
    (h : p.enable_hole_heuristic = false) :
    (is_background_like p m).2.2.hole = 0 := by
  rw [is_background_like_stats, h]
  rfl

/-- C10 witness: the ring mask has true hole content 9/16, yet a
disabled-heuristic run reports 0. -/
theorem c10_disabled_hole_stat_witness :
    (is_background_like paramsNoHole ringMask).2.2.hole = 0 ∧
      hole_frac ringMask paramsNoHole.min_hole_area_px = 9 / 16 := by
  refine ⟨c10_disabled_hole_stat paramsNoHole ringMask rfl, ?_⟩
  rw [hole_frac_eval ringMask paramsNoHole.min_hole_area_px 9 16 (by decide)
    (by norm_num) (by decide)]
  norm_num

/-- The all-background raster has foreground count 0. -/
theorem countTrue_allFalse (h w : ℕ) : countTrue (allFalse h w) = 0 := by
  have hrow : ∀ n : ℕ, (List.replicate n false).countP (fun b => b) = 0 := by
    intro n
    induction n with
    | zero => rfl
    | succ k ih => simp [List.replicate_succ, List.countP_cons, ih]
  simp [countTrue, allFalse, List.map_replicate, hrow, List.sum_replicate]

/-- On an empty mask the border-touch fraction is the guard value 0. -/
theorem border_touch_frac_empty (m : Raster) (h0 : countTrue m = 0) (band : ℤ) :
    border_touch_frac m band = 0 := by
  simp only [border_touch_frac, h0]
  rw [if_pos (by norm_num)]

/-- On an empty mask the hole fraction is the guard value 0. -/
theorem hole_frac_empty (m : Raster) (h0 : countTrue m = 0) (minh : ℕ) :
    hole_frac m minh = 0 := by
  simp only [hole_frac, h0]
  rw [if_pos (by norm_num)]

/-- C4: the classifier is total -- every mask gets exactly one
classification whose reason string is non-empty (its leading tag is one of
the five fixed non-empty tokens), and, whenever the noise floor is
positive, the all-background raster of any positive or zero dimensions is
decided by rule 1 with area 0 and all statistics 0, the guarded divisions
having returned 0 rather than failing. -/
theorem c4_classifier_total (p : Params) (m : Raster) (h w : ℕ) :
    (is_background_like p m).2.1.tag ≠ "" ∧
      (0 < p.min_instance_area_px →
        is_background_like p (allFalse h w) = (true, Reason.tooSmall 0, ⟨0, 0, 0, 0⟩)) := by
  constructor
  · simp only [is_background_like]
    split_ifs <;> simp [Reason.tag]
  · intro hmin
    have hc := countTrue_allFalse h w
    have hb := border_touch_frac_empty (allFalse h w) hc p.border_band_px
    have hh := hole_frac_empty (allFalse h w) hc p.min_hole_area_px
    simp only [is_background_like, hc, hb, hh]
    rw [if_pos hmin]
    have hfr : (if 0 < rHeight (allFalse h w) * rWidth (allFalse h w) then
        ((0 : ℕ) : ℚ) / ((rHeight (allFalse h w) : ℚ) * (rWidth (allFalse h w) : ℚ))
        else 0) = 0 := by
      split_ifs <;> simp
    have hho : (if p.enable_hole_heuristic then (0 : ℚ) else 0) = 0 := by
      split_ifs <;> rfl
    simp [hfr, hho]

/-- C4 witness: totality at the default configuration on a 3-by-3
all-background raster. -/
theorem c4_classifier_total_witness :
    (is_background_like defaultParams (allFalse 3 3)).2.1.tag ≠ "" ∧
      is_background_like defaultParams (allFalse 3 3) =
        (true, Reason.tooSmall 0, ⟨0, 0, 0, 0⟩) :=
  ⟨(c4_classifier_total defaultParams (allFalse 3 3) 3 3).1,
   (c4_classifier_total defaultParams (allFalse 3 3) 3 3).2 (by decide)⟩

/-- C3: the rules fire in the fixed order small, large, border, hole, with
the first match naming the reason; in particular a mask meeting both the
rule-1 and the rule-2 condition is reported `too_small`, never
`too_large`. -/
theorem c3_rule_order (p : Params) (m : Raster) :
    ((is_background_like p m).2.2.area < p.min_instance_area_px →
      (is_background_like p m).2.1 = Reason.tooSmall (is_background_like p m).2.2.area) ∧
    ((is_background_like p m).2.2.area < p.min_instance_area_px ∧
        p.bg_area_frac_th ≤ (is_background_like p m).2.2.area_frac →
      (is_background_like p m).2.1.tag = "too_small" ∧
        (is_background_like p m).2.1.tag ≠ "too_large") ∧
    (¬ (is_background_like p m).2.2.area < p.min_instance_area_px →
      p.bg_area_frac_th ≤ (is_background_like p m).2.2.area_frac →
      (is_background_like p m).2.1 =
        Reason.tooLarge (is_background_like p m).2.2.area_frac) ∧
    (¬ (is_background_like p m).2.2.area < p.min_instance_area_px →
      ¬ p.bg_area_frac_th ≤ (is_background_like p m).2.2.area_frac →
      p.border_touch_frac_th ≤ (is_background_like p m).2.2.border_touch →
      (is_background_like p m).2.1 =
        Reason.borderTouch (is_background_like p m).2.2.border_touch) ∧
    (¬ (is_background_like p m).2.2.area < p.min_instance_area_px →
      ¬ p.bg_area_frac_th ≤ (is_background_like p m).2.2.area_frac →
      ¬ p.border_touch_frac_th ≤ (is_background_like p m).2.2.border_touch →
      p.enable_hole_heuristic = true →
      p.hole_frac_th ≤ (is_background_like p m).2.2.hole →
      (is_background_like p m).2.1 = Reason.holeFrac (is_background_like p m).2.2.hole) ∧
    (¬ (is_background_like p m).2.2.area < p.min_instance_area_px →
      ¬ p.bg_area_frac_th ≤ (is_background_like p m).2.2.area_frac →
      ¬ p.border_touch_frac_th ≤ (is_background_like p m).2.2.border_touch →
      ¬ (p.enable_hole_heuristic = true ∧ p.hole_frac_th ≤ (is_background_like p m).2.2.hole) →
      (is_background_like p m).2.1 = Reason.kept ∧ (is_background_like p m).1 = false) := by
  simp only [is_background_like_stats]
  simp only [is_background_like]
  split_ifs with h1 h2 h3 h4 <;> simp_all [Reason.tag]

/-- C3 witness: the all-foreground 10-by-10 raster under the source
defaults satisfies rule 1 (area 100 < 150) and rule 2 (fraction 1 ≥ 0.45)
simultaneously and is reported `too_small`, never `too_large`. -/
theorem c3_rule_order_witness :
    (is_background_like defaultParams tenTen).2.1.tag = "too_small" ∧
      (is_background_like defaultParams tenTen).2.1.tag ≠ "too_large" := by
  have h100 : countTrue tenTen = 100 := by decide
  have hh : rHeight tenTen = 10 := by decide
  have hw : rWidth tenTen = 10 := by decide
  refine (c3_rule_order defaultParams tenTen).2.1 ?_
  rw [is_background_like_stats]
  refine ⟨?_, ?_⟩
  · show countTrue tenTen < defaultParams.min_instance_area_px
    decide
  · show defaultParams.bg_area_frac_th ≤
      (if 0 < rHeight tenTen * rWidth tenTen then
        ((countTrue tenTen : ℕ) : ℚ) / ((rHeight tenTen : ℚ) * (rWidth tenTen : ℚ)) else 0)
    simp only [h100, hh, hw]
    norm_num [defaultParams]

/-- C7: every polygon in an exported payload has an area at least
`min_contour_area`; smaller contours were dropped, not errored. -/
theorem c7_area_floor (p : Params) (masks : List Raster) (w h : ℕ) (poly : Polygon)
    (hmem : poly ∈ (export_contours_from_masks p masks w h).polygons) :
    p.min_contour_area ≤ poly.area_px := by
  simp only [export_contours_from_masks] at hmem
  have hraw : poly ∈ rawPolys p masks := List.mem_mergeSort.mp hmem
  obtain ⟨i, _, _, hp⟩ := rawPolysFrom_mem p masks 0 poly hraw
  exact (processMask_some p _ _ poly hp).2.1

/-- C6: exported polygons are sorted by area descending, and the sort is
stable -- an equal-area pair in its pre-sort order stays in that order. -/
theorem c6_sorted_stable (p : Params) (masks : List Raster) (w h : ℕ) :
    (export_contours_from_masks p masks w h).polygons.Pairwise
      (fun a b => b.area_px ≤ a.area_px) ∧
    ∀ q r : Polygon, List.Sublist [q, r] (rawPolys p masks) → q.area_px = r.area_px →
      List.Sublist [q, r] (export_contours_from_masks p masks w h).polygons := by
  constructor
  · have hs := List.sorted_mergeSort polyLe_trans polyLe_total (rawPolys p masks)
    simp only [export_contours_from_masks]
    exact hs.imp (fun hab => by simpa [polyLe, decide_eq_true_eq] using hab)
  · intro q r hsub heq
    simp only [export_contours_from_masks]
    refine List.pair_sublist_mergeSort polyLe_trans polyLe_total ?_ hsub
    simp only [polyLe, decide_eq_true_eq]
    exact heq.ge

/-- C9: per-instance export emits at most one polygon per instance --
mask indices are pairwise distinct, every polygon's area dominates every
contour of its own cleaned instance raster (only the largest contour was
considered), and an instance whose processing succeeds contributes exactly
one polygon. -/
theorem c9_per_instance (p : Params) (masks : List Raster) (w h : ℕ) :
    ((export_contours_from_masks p masks w h).polygons.map Polygon.mask_index).Nodup ∧
    (∀ poly ∈ (export_contours_from_masks p masks w h).polygons,
      poly.mask_index < masks.length ∧
      ∀ c ∈ findContours (morph_clean p (masks.getD poly.mask_index [])),
        contourArea c ≤ poly.area_px) ∧
    (∀ (mi : ℕ) (poly' : Polygon), mi < masks.length →
      processMask p mi (masks.getD mi []) = some poly' →
      poly' ∈ (export_contours_from_masks p masks w h).polygons ∧
      ∀ q ∈ (export_contours_from_masks p masks w h).polygons,
        q.mask_index = mi → q = poly') := by
  have hperm : (export_contours_from_masks p masks w h).polygons.Perm (rawPolys p masks) := by
    simp only [export_contours_from_masks]
    exact List.mergeSort_perm _ _
  have hnodup_raw : ((rawPolys p masks).map Polygon.mask_index).Nodup := by
    have hpw := rawPolysFrom_pairwise p masks 0
    exact List.pairwise_map.mpr (hpw.imp fun hlt => Nat.ne_of_lt hlt)
  have hnodup : ((export_contours_from_masks p masks w h).polygons.map
      Polygon.mask_index).Nodup :=
    ((hperm.map Polygon.mask_index).nodup_iff).mpr hnodup_raw
  refine ⟨hnodup, ?_, ?_⟩
  · intro poly hmem
    have hraw : poly ∈ rawPolys p masks := hperm.subset hmem
    obtain ⟨i, hi, hidx, hp⟩ := rawPolysFrom_mem p masks 0 poly hraw
    have hidx0 : poly.mask_index = i := by omega
    refine ⟨by omega, ?_⟩
    intro c hc
    rw [hidx0] at hc
    exact (processMask_some p (0 + i) (masks.getD i []) poly hp).2.2.1 c hc
  · intro mi poly' hmi hp
    have hraw : poly' ∈ rawPolys p masks :=
      mem_rawPolysFrom p masks 0 mi poly' hmi (by simpa using hp)
    have hmem : poly' ∈ (export_contours_from_masks p masks w h).polygons :=
      hperm.mem_iff.mpr hraw
    refine ⟨hmem, ?_⟩
    intro q hq hqidx
    have hpidx : poly'.mask_index = mi := (processMask_some p mi _ poly' hp).1
    exact List.inj_on_of_nodup_map hnodup hq hmem (by rw [hqidx, hpidx])

/-- C2 (amended): in the per-instance pipeline every exported polygon's
`mask_index` is its originating mask's position within the kept
(classifier-surviving) subsequence handed to the exporter -- not within
the originally supplied, area-sorted full sequence. -/
theorem c2_mask_index_kept (p : Params) (masks : List Raster) (w h : ℕ) (poly : Polygon)
    (hmem : poly ∈ (main_pipeline p masks w h).polygons) :
    poly.mask_index < (keptMasks p masks).length ∧
      processMask p poly.mask_index ((keptMasks p masks).getD poly.mask_index []) =
        some poly := by
  simp only [main_pipeline, export_contours_from_masks] at hmem
  have hraw := List.mem_mergeSort.mp hmem
  obtain ⟨i, hi, hidx, hp⟩ := rawPolysFrom_mem p (keptMasks p masks) 0 poly hraw
  have h0 : poly.mask_index = i := by omega
  rw [h0]
  exact ⟨hi, by simpa using hp⟩

/-- The mask sort keeps the already-ordered pair (areas 49 > 9). -/
theorem sortMasks_AB : sortMasksDesc [maskA7, maskB7] = [maskA7, maskB7] :=
  mergeSort_pair_le maskLe_trans maskLe_total (by decide)

/-- Classification drops the all-foreground mask and keeps the block. -/
theorem kept_AB : keptMasks smallParams [maskA7, maskB7] = [maskB7] := by
  simp only [keptMasks, sortMasks_AB, List.filter_cons, List.filter_nil,
    bg_flag_A7, bg_flag_B7]
  rfl

/-- The kept mask sat at position 1 of the area-sorted input sequence. -/
theorem keptIdx_AB : keptIndices smallParams [maskA7, maskB7] = [1] := by
  simp only [keptIndices, sortMasks_AB, keptIndicesFrom, bg_flag_A7, bg_flag_B7]
  rfl

/-- The raw polygon list of the kept subset `[maskB7]`. -/
theorem rawPolys_B7 : rawPolys smallParams [maskB7] =
    [⟨"object", [(2, 2), (2, 4), (4, 4), (4, 2)], [], 4, 0⟩] := by
  simp only [rawPolys, rawPolysFrom, processMask_b7]

/-- The polygons of the full pipeline on `[maskA7, maskB7]`. -/
theorem polys_AB : (main_pipeline smallParams [maskA7, maskB7] 7 7).polygons =
    [⟨"object", [(2, 2), (2, 4), (4, 4), (4, 2)], [], 4, 0⟩] := by
  simp only [main_pipeline, kept_AB, export_contours_from_masks, rawPolys_B7,
    List.mergeSort_singleton]

/-- The raw polygon list of `[maskC, maskD]`: two equal-area squares in
input order. -/
theorem rawPolys_CD : rawPolys smallParams [maskC, maskD] =
    [⟨"object", [(2, 2), (2, 4), (4, 4), (4, 2)], [], 4, 0⟩,
     ⟨"object", [(6, 2), (6, 4), (8, 4), (8, 2)], [], 4, 1⟩] := by
  simp only [rawPolys, rawPolysFrom, processMask_c, processMask_d]

/-- The polygons of the export of `[maskB7]` alone. -/
theorem polys_B7 : (export_contours_from_masks smallParams [maskB7] 7 7).polygons =
    [⟨"object", [(2, 2), (2, 4), (4, 4), (4, 2)], [], 4, 0⟩] := by
  simp only [export_contours_from_masks, rawPolys_B7, List.mergeSort_singleton]

/-- The raw polygon list of `[twoBlocks]`. -/
theorem rawPolys_two : rawPolys smallParams [twoBlocks] =
    [⟨"object", [(2, 2), (2, 5), (5, 5), (5, 2)], [], 9, 0⟩] := by
  simp only [rawPolys, rawPolysFrom, processMask_two]

/-- The polygons of the export of `[twoBlocks]`. -/
theorem polys_two : (export_contours_from_masks smallParams [twoBlocks] 12 9).polygons =
    [⟨"object", [(2, 2), (2, 5), (5, 5), (5, 2)], [], 9, 0⟩] := by
  simp only [export_contours_from_masks, rawPolys_two, List.mergeSort_singleton]

/-- C2 counterexample: with the all-foreground 7-by-7 mask (dropped as
background) ahead of the kept 3-by-3-block mask in the area-sorted input,
the sole exported polygon carries `mask_index = 0` -- its position in the
kept subset -- while the mask it originates from sits at index 1 of the
originally supplied, area-sorted sequence. -/
theorem c2_cex :
    ((main_pipeline smallParams [maskA7, maskB7] 7 7).polygons.map Polygon.mask_index
      = [0]) ∧ keptIndices smallParams [maskA7, maskB7] = [1] := by
  constructor
  · rw [polys_AB]
    rfl
  · exact keptIdx_AB

/-- C2 witness: the amended statement at the concrete pipeline run. -/
theorem c2_mask_index_kept_witness :
    (⟨"object", [(2, 2), (2, 4), (4, 4), (4, 2)], [], 4, 0⟩ : Polygon).mask_index <
        (keptMasks smallParams [maskA7, maskB7]).length ∧
      processMask smallParams
        (⟨"object", [(2, 2), (2, 4), (4, 4), (4, 2)], [], 4, 0⟩ : Polygon).mask_index
        ((keptMasks smallParams [maskA7, maskB7]).getD
          (⟨"object", [(2, 2), (2, 4), (4, 4), (4, 2)], [], 4, 0⟩ : Polygon).mask_index [])
        = some ⟨"object", [(2, 2), (2, 4), (4, 4), (4, 2)], [], 4, 0⟩ :=
  c2_mask_index_kept smallParams [maskA7, maskB7] 7 7
    ⟨"object", [(2, 2), (2, 4), (4, 4), (4, 2)], [], 4, 0⟩
    (by rw [polys_AB]; exact List.mem_cons_self _ _)

/-- C6 witness: two equal-area polygons (from `maskC` before `maskD`) keep
their prior relative order through the export sort. -/
theorem c6_sorted_stable_witness :
    List.Sublist
      [(⟨"object", [(2, 2), (2, 4), (4, 4), (4, 2)], [], 4, 0⟩ : Polygon),
       ⟨"object", [(6, 2), (6, 4), (8, 4), (8, 2)], [], 4, 1⟩]
      (rawPolys smallParams [maskC, maskD]) ∧
    (⟨"object", [(2, 2), (2, 4), (4, 4), (4, 2)], [], 4, 0⟩ : Polygon).area_px =
      (⟨"object", [(6, 2), (6, 4), (8, 4), (8, 2)], [], 4, 1⟩ : Polygon).area_px ∧
    List.Sublist
      [(⟨"object", [(2, 2), (2, 4), (4, 4), (4, 2)], [], 4, 0⟩ : Polygon),
       ⟨"object", [(6, 2), (6, 4), (8, 4), (8, 2)], [], 4, 1⟩]
      (export_contours_from_masks smallParams [maskC, maskD] 11 7).polygons :=
  ⟨by rw [rawPolys_CD], rfl,
   (c6_sorted_stable smallParams [maskC, maskD] 11 7).2 _ _ (by rw [rawPolys_CD]) rfl⟩

/-- C7 witness: the area floor at the concrete export of `[maskB7]`. -/
theorem c7_area_floor_witness :
    (⟨"object", [(2, 2), (2, 4), (4, 4), (4, 2)], [], 4, 0⟩ : Polygon) ∈
        (export_contours_from_masks smallParams [maskB7] 7 7).polygons ∧
      smallParams.min_contour_area ≤
        (⟨"object", [(2, 2), (2, 4), (4, 4), (4, 2)], [], 4, 0⟩ : Polygon).area_px :=
  ⟨by rw [polys_B7]; exact List.mem_cons_self _ _,
   c7_area_floor smallParams [maskB7] 7 7 _ (by rw [polys_B7]; exact List.mem_cons_self _ _)⟩

/-- C9 witness: on the two-component instance `twoBlocks` the exported
polygon (area 9) dominates the smaller contour (area 4), which was
silently dropped. -/
theorem c9_per_instance_witness :
    (⟨"object", [(2, 2), (2, 5), (5, 5), (5, 2)], [], 9, 0⟩ : Polygon) ∈
        (export_contours_from_masks smallParams [twoBlocks] 12 9).polygons ∧
      contourArea [(8, 2), (8, 4), (10, 4), (10, 2)] ≤
        (⟨"object", [(2, 2), (2, 5), (5, 5), (5, 2)], [], 9, 0⟩ : Polygon).area_px := by
  have hmem : (⟨"object", [(2, 2), (2, 5), (5, 5), (5, 2)], [], 9, 0⟩ : Polygon) ∈
      (export_contours_from_masks smallParams [twoBlocks] 12 9).polygons := by
    rw [polys_two]
    exact List.mem_cons_self _ _
  refine ⟨hmem, ?_⟩
  refine ((c9_per_instance smallParams [twoBlocks] 12 9).2.1 _ hmem).2
    [(8, 2), (8, 4), (10, 4), (10, 2)] ?_
  show [((8 : ℤ), (2 : ℤ)), (8, 4), (10, 4), (10, 2)] ∈
    findContours (morph_clean smallParams ([twoBlocks].getD 0 []))
  rw [show ([twoBlocks].getD 0 []) = twoBlocks from rfl, contours_two]
  simp
